import Mathlib

/-!
Verification of the FGSM adversarial-attack tutorial (fgsm_tutorial.py).

Tensors are modelled as flat lists of rationals (exact arithmetic standing in
for the floating-point pixel values); a dataset is a list of (input, label)
pairs; the model collaborator is a pair of pure functions, one producing class
scores and one producing the gradient of the loss with respect to the input.
The runnable Python bodies are stripped from the source file, so the two
routines, fgsm_attack and test, are modelled from the specification and from
the prose description retained in the source comments.
-/

/-- Modelled from the spec: elementwise sign of a scalar, as used by the
gradient-sign step, with value -1 for negatives, 0 at zero and 1 for
positives. -/
def sign (x : ℚ) : ℚ := if x < 0 then -1 else if x = 0 then 0 else 1

/-- Modelled from the spec: clamping of a scalar into the closed range
from 0 to 1, as the source prose describes for the perturbed image. -/
def clamp01 (x : ℚ) : ℚ := min (max x 0) 1

/-- Modelled from the spec: the FGSM perturbation.  The source prose states
perturbed_image = image + epsilon * sign(data_grad), after which the
perturbed image is clipped to the range from 0 to 1.  Elementwise over the
flattened tensors. -/
def fgsm_attack (image : List ℚ) (epsilon : ℚ) (data_grad : List ℚ) : List ℚ :=
  List.zipWith (fun x g => clamp01 (x + epsilon * sign g)) image data_grad

/-- Elementwise access of a zipWith of two lists of equal length. -/
lemma zipWith_getD (f : ℚ → ℚ → ℚ) :
    ∀ (as bs : List ℚ) (i : Nat), bs.length = as.length → i < as.length →
      (List.zipWith f as bs).getD i 0 = f (as.getD i 0) (bs.getD i 0) := by
  intro as
  induction as with
  | nil => intro bs i _ hi; simp at hi
  | cons a as ih =>
    intro bs i hlen hi
    cases bs with
    | nil => simp at hlen
    | cons b bs =>
      cases i with
      | zero => simp
      | succ j =>
        simp only [List.zipWith_cons_cons, List.getD_cons_succ]
        exact ih bs j (by simpa using hlen) (by simpa using hi)

/-- Length of the FGSM output when the gradient has the shape of the image. -/
lemma fgsm_attack_length (image data_grad : List ℚ) (epsilon : ℚ)
    (hlen : data_grad.length = image.length) :
    (fgsm_attack image epsilon data_grad).length = image.length := by
  simp [fgsm_attack, hlen]

/-- Elementwise description of the FGSM output. -/
lemma fgsm_attack_getD (image data_grad : List ℚ) (epsilon : ℚ)
    (hlen : data_grad.length = image.length) (i : Nat) (hi : i < image.length) :
    (fgsm_attack image epsilon data_grad).getD i 0 =
      clamp01 (image.getD i 0 + epsilon * sign (data_grad.getD i 0)) := by
  exact zipWith_getD _ image data_grad i hlen hi

/-- Sign takes only the three values -1, 0 and 1. -/
lemma sign_cases (g : ℚ) : sign g = -1 ∨ sign g = 0 ∨ sign g = 1 := by
  unfold sign
  by_cases h1 : g < 0
  · simp [h1]
  · by_cases h2 : g = 0 <;> simp [h1, h2]

/-- Clamped values lie between 0 and 1. -/
lemma clamp01_mem (x : ℚ) : 0 ≤ clamp01 x ∧ clamp01 x ≤ 1 := by
  unfold clamp01
  constructor
  · exact le_min (le_max_right x 0) (by norm_num)
  · exact min_le_right _ _

/-- Clamping fixes values already between 0 and 1. -/
lemma clamp01_eq_self (x : ℚ) (h0 : 0 ≤ x) (h1 : x ≤ 1) : clamp01 x = x := by
  unfold clamp01
  rw [max_eq_left h0, min_eq_left h1]

/-- C1: for every input tensor, gradient tensor of the same shape and
epsilon at least 0, fgsm_attack computes the elementwise sign of the
gradient (each sign being -1, 0 or 1), adds epsilon times that sign to the
input elementwise and clamps each element into the range from 0 to 1; the
output has the shape of the input and element i equals
clamp01 (image i + epsilon * sign (grad i)). -/
theorem fgsm_attack_formula (image data_grad : List ℚ) (epsilon : ℚ)
    (hlen : data_grad.length = image.length) (heps : 0 ≤ epsilon) :
    (fgsm_attack image epsilon data_grad).length = image.length ∧
    (∀ g : ℚ, sign g = -1 ∨ sign g = 0 ∨ sign g = 1) ∧
    ∀ i : Nat, i < image.length →
      (fgsm_attack image epsilon data_grad).getD i 0 =
        clamp01 (image.getD i 0 + epsilon * sign (data_grad.getD i 0)) := by
  refine ⟨fgsm_attack_length image data_grad epsilon hlen, sign_cases, ?_⟩
  intro i hi
  exact fgsm_attack_getD image data_grad epsilon hlen i hi

/-- Witness for C1 at a concrete input. -/
theorem fgsm_attack_formula_witness :
    ([(3 : ℚ)/4, 1/4] : List ℚ).length = ([(1 : ℚ)/2, 9/10] : List ℚ).length ∧
      (0 : ℚ) ≤ 1/2 ∧
      ((fgsm_attack [(1 : ℚ)/2, 9/10] (1/2) [(3 : ℚ)/4, 1/4]).length =
          ([(1 : ℚ)/2, 9/10] : List ℚ).length ∧
        (∀ g : ℚ, sign g = -1 ∨ sign g = 0 ∨ sign g = 1) ∧
        ∀ i : Nat, i < ([(1 : ℚ)/2, 9/10] : List ℚ).length →
          (fgsm_attack [(1 : ℚ)/2, 9/10] (1/2) [(3 : ℚ)/4, 1/4]).getD i 0 =
            clamp01 (([(1 : ℚ)/2, 9/10] : List ℚ).getD i 0 +
              (1/2) * sign (([(3 : ℚ)/4, 1/4] : List ℚ).getD i 0))) :=
  ⟨by decide, by norm_num,
    fgsm_attack_formula [(1 : ℚ)/2, 9/10] [(3 : ℚ)/4, 1/4] (1/2)
      (by decide) (by norm_num)⟩

/-- C2: every element of the output of fgsm_attack lies in the closed range
from 0 to 1, for every input, epsilon and gradient. -/
theorem fgsm_attack_mem_unit (image data_grad : List ℚ) (epsilon : ℚ) :
    ∀ y ∈ fgsm_attack image epsilon data_grad, 0 ≤ y ∧ y ≤ 1 := by
  intro y hy
  unfold fgsm_attack at hy
  rcases List.mem_iff_getElem.mp hy with ⟨i, hi, hget⟩
  rw [List.getElem_zipWith] at hget
  rw [← hget]
  exact clamp01_mem _

/-- Witness for C2 at a concrete input. -/
theorem fgsm_attack_mem_unit_witness :
    (0 : ℚ) ≤ clamp01 ((1 : ℚ)/2 + 2 * sign 3) ∧
      clamp01 ((1 : ℚ)/2 + 2 * sign 3) ≤ 1 :=
  fgsm_attack_mem_unit [(1 : ℚ)/2] [(3 : ℚ)] 2
    (clamp01 ((1 : ℚ)/2 + 2 * sign 3)) (by simp [fgsm_attack])

/-- Clamping fixes the elements of a list already lying between 0 and 1
when epsilon is 0, elementwise over a zip with the gradient. -/
theorem fgsm_attack_epsilon_zero (image data_grad : List ℚ)
    (hlen : data_grad.length = image.length)
    (hrange : ∀ x ∈ image, 0 ≤ x ∧ x ≤ 1) :
    fgsm_attack image 0 data_grad = image := by
  unfold fgsm_attack
  induction image generalizing data_grad with
  | nil => simp
  | cons x xs ih =>
    cases data_grad with
    | nil => simp at hlen
    | cons g gs =>
      have hx := hrange x (List.mem_cons_self x xs)
      simp only [List.zipWith_cons_cons]
      rw [zero_mul, add_zero, clamp01_eq_self x hx.1 hx.2]
      congr 1
      exact ih gs (by simpa using hlen) (fun y hy => hrange y (List.mem_cons_of_mem x hy))

/-- Witness for C4 at a concrete input. -/
theorem fgsm_attack_epsilon_zero_witness :
    fgsm_attack [(1 : ℚ)/2, 1] 0 [(-3 : ℚ), 7] = [(1 : ℚ)/2, 1] :=
  fgsm_attack_epsilon_zero [(1 : ℚ)/2, 1] [(-3 : ℚ), 7] (by decide)
    (by intro x hx; fin_cases hx <;> norm_num)

/-- Clamping a shifted value moves it by at most the shift, for base points
between 0 and 1. -/
lemma abs_clamp01_add_sub_le (x d : ℚ) (h0 : 0 ≤ x) (h1 : x ≤ 1) :
    |clamp01 (x + d) - x| ≤ |d| := by
  rcases le_or_lt (x + d) 0 with hle | hpos
  · have hc : clamp01 (x + d) = 0 := by
      unfold clamp01
      rw [max_eq_right hle, min_eq_left (by norm_num)]
    rw [hc, zero_sub, abs_neg, abs_of_nonneg h0]
    have := neg_le_abs d
    linarith
  · rcases le_or_lt 1 (x + d) with hge | hlt
    · have hc : clamp01 (x + d) = 1 := by
        unfold clamp01
        rw [max_eq_left (by linarith), min_eq_right hge]
      rw [hc, abs_of_nonneg (by linarith)]
      have := le_abs_self d
      linarith
    · have hc : clamp01 (x + d) = x + d := by
        unfold clamp01
        rw [max_eq_left hpos.le, min_eq_left hlt.le]
      rw [hc, add_sub_cancel_left]

/-- C5: for inputs with elements between 0 and 1, nonnegative epsilon and a
gradient of the same shape, each element of the fgsm_attack output differs
from the corresponding input element by at most epsilon in absolute value. -/
theorem fgsm_attack_bounded_change (image data_grad : List ℚ) (epsilon : ℚ)
    (heps : 0 ≤ epsilon) (hlen : data_grad.length = image.length)
    (hrange : ∀ x ∈ image, 0 ≤ x ∧ x ≤ 1) :
    ∀ i : Nat, i < image.length →
      |(fgsm_attack image epsilon data_grad).getD i 0 - image.getD i 0| ≤ epsilon := by
  intro i hi
  rw [fgsm_attack_getD image data_grad epsilon hlen i hi]
  have hmem : image.getD i 0 ∈ image := by
    rw [List.getD_eq_getElem image 0 hi]
    exact List.getElem_mem hi
  rcases hrange _ hmem with ⟨h0, h1⟩
  refine le_trans (abs_clamp01_add_sub_le _ _ h0 h1) ?_
  rw [abs_mul, abs_of_nonneg heps]
  have hs : |sign (List.getD data_grad i 0)| ≤ 1 := by
    rcases sign_cases (List.getD data_grad i 0) with h | h | h <;> rw [h] <;> norm_num
  exact mul_le_of_le_one_right heps hs

/-- Witness for C5 at a concrete input. -/
theorem fgsm_attack_bounded_change_witness :
    (0 : ℚ) ≤ 1/4 ∧
      ∀ i : Nat, i < ([(1 : ℚ)/2] : List ℚ).length →
        |(fgsm_attack [(1 : ℚ)/2] (1/4) [(-2 : ℚ)]).getD i 0 -
            ([(1 : ℚ)/2] : List ℚ).getD i 0| ≤ 1/4 :=
  ⟨by norm_num,
    fgsm_attack_bounded_change [(1 : ℚ)/2] [(-2 : ℚ)] (1/4) (by norm_num)
      (by decide) (by intro x hx; fin_cases hx <;> norm_num)⟩

/-- Clamping is monotone. -/
lemma clamp01_mono {x y : ℚ} (h : x ≤ y) : clamp01 x ≤ clamp01 y := by
  unfold clamp01
  exact min_le_min (max_le_max h le_rfl) le_rfl

/-- C10: for a fixed epsilon and gradient, fgsm_attack is elementwise
monotone nondecreasing in its input: elementwise ordered inputs give
elementwise ordered outputs. -/
theorem fgsm_attack_input_monotone (a b data_grad : List ℚ) (epsilon : ℚ)
    (hab : List.Forall₂ (· ≤ ·) a b) :
    List.Forall₂ (· ≤ ·) (fgsm_attack a epsilon data_grad)
      (fgsm_attack b epsilon data_grad) := by
  unfold fgsm_attack
  induction hab generalizing data_grad with
  | nil => simp
  | @cons x y xs ys hxy hrest ih =>
    cases data_grad with
    | nil => simp
    | cons g gs =>
      simp only [List.zipWith_cons_cons]
      exact List.Forall₂.cons (clamp01_mono (by linarith)) (ih gs)

/-- Witness for C10 at a concrete input. -/
theorem fgsm_attack_input_monotone_witness :
    List.Forall₂ (· ≤ ·) (fgsm_attack [(1 : ℚ)/4, 0] (1/10) [(1 : ℚ), -1])
      (fgsm_attack [(1 : ℚ)/2, 1] (1/10) [(1 : ℚ), -1]) :=
  fgsm_attack_input_monotone [(1 : ℚ)/4, 0] [(1 : ℚ)/2, 1] [(1 : ℚ), -1] (1/10)
    (by constructor
        · norm_num
        · constructor
          · norm_num
          · exact List.Forall₂.nil)

/-- Modelled from the spec: the model collaborator, a pure forward pass from
an input tensor to class scores together with the backpropagation capability,
read back as the gradient of the loss with respect to the input for a given
true label. -/
structure Model where
  forward : List ℚ → List ℚ
  grad : List ℚ → Nat → List ℚ

/-- Accumulator for the index of the first highest score seen so far. -/
def argmaxAux : List (Nat × ℚ) → Nat × ℚ → Nat × ℚ
  | [], best => best
  | p :: rest, best => argmaxAux rest (if best.2 < p.2 then p else best)

/-- Modelled from the spec: the highest-scoring class index of a score list,
taking the first index on ties and 0 for an empty list. -/
def argmax (scores : List ℚ) : Nat :=
  match scores.enum with
  | [] => 0
  | p :: rest => (argmaxAux rest p).1

/-- State threaded through the evaluation loop: the count of samples still
correct after the attack, the count of originally-correct samples processed,
and the retained adversarial triples of true label, final prediction and
perturbed input. -/
structure TestState where
  correct : Nat
  total : Nat
  advExamples : List (Nat × Nat × List ℚ)

/-- Modelled from the spec: the fixed retention cap for adversarial
examples. -/
def advCap : Nat := 5

/-- Modelled from the spec: one iteration of the evaluation loop.  The
initial prediction is taken from the forward pass; an initially wrong
sample is skipped entirely; otherwise the gradient is read back, the input
is perturbed with fgsm_attack, the model is run again, and either the
correct count is incremented or, when fewer than advCap examples are
retained, the triple of true label, final prediction and perturbed input
is appended. -/
def testStep (model : Model) (epsilon : ℚ) (s : TestState) (sample : List ℚ × Nat) :
    TestState :=
  if argmax (model.forward sample.1) = sample.2 then
    let dataGrad := model.grad sample.1 sample.2
    let perturbed := fgsm_attack sample.1 epsilon dataGrad
    let finalPrediction := argmax (model.forward perturbed)
    if finalPrediction = sample.2 then
      ⟨s.correct + 1, s.total + 1, s.advExamples⟩
    else if s.advExamples.length < advCap then
      ⟨s.correct, s.total + 1,
        s.advExamples ++ [(sample.2, finalPrediction, perturbed)]⟩
    else
      ⟨s.correct, s.total + 1, s.advExamples⟩
  else s

/-- Modelled from the spec: the evaluation loop folded over the dataset from
the empty initial state. -/
def runTest (model : Model) (epsilon : ℚ) (dataset : List (List ℚ × Nat)) :
    TestState :=
  dataset.foldl (testStep model epsilon) ⟨0, 0, []⟩

/-- Modelled from the spec: the test routine returns the accuracy, the
correct count divided by the count of originally-correct samples processed,
together with the retained adversarial examples. -/
def test (model : Model) (epsilon : ℚ) (dataset : List (List ℚ × Nat)) :
    ℚ × List (Nat × Nat × List ℚ) :=
  let s := runTest model epsilon dataset
  (((s.correct : ℚ) / (s.total : ℚ)), s.advExamples)

/-- Initial prediction of the model on a sample. -/
def initPred (model : Model) (sample : List ℚ × Nat) : Nat :=
  argmax (model.forward sample.1)

/-- Perturbed input produced for a sample at a given epsilon. -/
def perturbedOf (model : Model) (epsilon : ℚ) (sample : List ℚ × Nat) : List ℚ :=
  fgsm_attack sample.1 epsilon (model.grad sample.1 sample.2)

/-- Final prediction of the model on the perturbed input of a sample. -/
def finalPred (model : Model) (epsilon : ℚ) (sample : List ℚ × Nat) : Nat :=
  argmax (model.forward (perturbedOf model epsilon sample))

/-- Count of samples whose initial prediction matches the label. -/
def countInitCorrect (model : Model) (ds : List (List ℚ × Nat)) : Nat :=
  (ds.filter (fun p => decide (initPred model p = p.2))).length

/-- Count of samples initially correct and still correct after the attack. -/
def countStillCorrect (model : Model) (epsilon : ℚ)
    (ds : List (List ℚ × Nat)) : Nat :=
  (ds.filter (fun p =>
    decide (initPred model p = p.2 ∧ finalPred model epsilon p = p.2))).length

/-- Encounter-ordered uncapped list of successful flips: triples of true
label, final prediction and perturbed input of the initially-correct
samples misclassified after the attack. -/
def flipTriples (model : Model) (epsilon : ℚ) (ds : List (List ℚ × Nat)) :
    List (Nat × Nat × List ℚ) :=
  (ds.filter (fun p =>
      decide (initPred model p = p.2 ∧ ¬ finalPred model epsilon p = p.2))).map
    (fun p => (p.2, finalPred model epsilon p, perturbedOf model epsilon p))

/-- Characterization of the evaluation loop fold from an arbitrary starting
state: both counters accumulate filter counts and the retained list extends
by the flips taken up to the remaining room under the cap. -/
lemma foldl_testStep_eq (model : Model) (epsilon : ℚ) :
    ∀ (ds : List (List ℚ × Nat)) (s : TestState),
      ds.foldl (testStep model epsilon) s =
        ⟨s.correct + countStillCorrect model epsilon ds,
          s.total + countInitCorrect model ds,
          s.advExamples ++
            (flipTriples model epsilon ds).take (advCap - s.advExamples.length)⟩ := by
  intro ds
  induction ds with
  | nil =>
    intro s
    simp [countStillCorrect, countInitCorrect, flipTriples]
  | cons p ds ih =>
    intro s
    rw [List.foldl_cons]
    by_cases hi : initPred model p = p.2
    · by_cases hf : finalPred model epsilon p = p.2
      · have hstep : testStep model epsilon s p =
            ⟨s.correct + 1, s.total + 1, s.advExamples⟩ := by
          unfold testStep
          simp only [initPred] at hi
          simp only [finalPred, perturbedOf] at hf
          rw [if_pos hi, if_pos hf]
        rw [hstep, ih]
        have hcS : countStillCorrect model epsilon (p :: ds) =
            countStillCorrect model epsilon ds + 1 := by
          unfold countStillCorrect
          rw [List.filter_cons_of_pos (by simp [hi, hf])]
          simp
        have hcI : countInitCorrect model (p :: ds) =
            countInitCorrect model ds + 1 := by
          unfold countInitCorrect
          rw [List.filter_cons_of_pos (by simp [hi])]
          simp
        have hflip : flipTriples model epsilon (p :: ds) =
            flipTriples model epsilon ds := by
          unfold flipTriples
          rw [List.filter_cons_of_neg (by simp [hf])]
        rw [hcS, hcI, hflip]
        simp only [TestState.mk.injEq, and_true, true_and]
        omega
      · have hcS : countStillCorrect model epsilon (p :: ds) =
            countStillCorrect model epsilon ds := by
          unfold countStillCorrect
          rw [List.filter_cons_of_neg (by simp [hf])]
        have hcI : countInitCorrect model (p :: ds) =
            countInitCorrect model ds + 1 := by
          unfold countInitCorrect
          rw [List.filter_cons_of_pos (by simp [hi])]
          simp
        have hflip : flipTriples model epsilon (p :: ds) =
            (p.2, finalPred model epsilon p, perturbedOf model epsilon p) ::
              flipTriples model epsilon ds := by
          unfold flipTriples
          rw [List.filter_cons_of_pos (by simp [hi, hf])]
          simp
        by_cases hlen : s.advExamples.length < advCap
        · have hstep : testStep model epsilon s p =
              ⟨s.correct, s.total + 1, s.advExamples ++
                [(p.2, finalPred model epsilon p, perturbedOf model epsilon p)]⟩ := by
            unfold testStep
            simp only [initPred] at hi
            simp only [finalPred, perturbedOf] at hf ⊢
            rw [if_pos hi, if_neg hf, if_pos hlen]
          rw [hstep, ih, hcS, hcI, hflip]
          simp only [TestState.mk.injEq, and_true, true_and]
          refine ⟨by omega, ?_⟩
          rw [List.length_append, List.length_singleton]
          have hsub : advCap - s.advExamples.length =
              (advCap - (s.advExamples.length + 1)) + 1 := by omega
          rw [hsub, List.take_succ_cons, List.append_assoc, List.singleton_append]
        · have hstep : testStep model epsilon s p =
              ⟨s.correct, s.total + 1, s.advExamples⟩ := by
            unfold testStep
            simp only [initPred] at hi
            simp only [finalPred, perturbedOf] at hf ⊢
            rw [if_pos hi, if_neg hf, if_neg hlen]
          rw [hstep, ih, hcS, hcI, hflip]
          simp only [TestState.mk.injEq, and_true, true_and]
          refine ⟨by omega, ?_⟩
          have h0 : advCap - s.advExamples.length = 0 := by omega
          rw [h0]
          simp
    · have hstep : testStep model epsilon s p = s := by
        unfold testStep
        simp only [initPred] at hi
        rw [if_neg hi]
      have hcS : countStillCorrect model epsilon (p :: ds) =
          countStillCorrect model epsilon ds := by
        unfold countStillCorrect
        rw [List.filter_cons_of_neg (by simp [hi])]
      have hcI : countInitCorrect model (p :: ds) =
          countInitCorrect model ds := by
        unfold countInitCorrect
        rw [List.filter_cons_of_neg (by simp [hi])]
      have hflip : flipTriples model epsilon (p :: ds) =
          flipTriples model epsilon ds := by
        unfold flipTriples
        rw [List.filter_cons_of_neg (by simp [hi])]
      rw [hstep, ih, hcS, hcI, hflip]

/-- Counters of a full run from the empty state. -/
lemma runTest_eq (model : Model) (epsilon : ℚ) (dataset : List (List ℚ × Nat)) :
    runTest model epsilon dataset =
      ⟨countStillCorrect model epsilon dataset,
        countInitCorrect model dataset,
        (flipTriples model epsilon dataset).take advCap⟩ := by
  unfold runTest
  rw [foldl_testStep_eq]
  simp

/-- Accuracy returned by the test routine, as a ratio of the two counters. -/
lemma test_fst (model : Model) (epsilon : ℚ) (ds : List (List ℚ × Nat)) :
    (test model epsilon ds).1 =
      (countStillCorrect model epsilon ds : ℚ) / (countInitCorrect model ds : ℚ) := by
  unfold test
  rw [runTest_eq]

/-- Concrete model that always predicts class 0, used for the scenario
statements. -/
def constModel : Model := ⟨fun _ => [1, 0], fun _ _ => [0]⟩

/-- Concrete two-sample dataset for constModel: sample A carries label 0 and
is initially correct, sample B carries label 1 and is initially wrong. -/
def twoSampleDataset : List (List ℚ × Nat) := [([0], 0), ([0], 1)]

/-- C3: the evaluation loop skips initially-wrong samples from both counters:
the denominator counter equals the number of initially-correct samples, the
numerator counts the samples correct before and after the attack, accuracy is
their quotient, and on the concrete two-sample dataset with one initially
wrong sample the denominator is 1 for every epsilon. -/
theorem test_accuracy_accounting (model : Model) (epsilon : ℚ)
    (dataset : List (List ℚ × Nat)) :
    (runTest model epsilon dataset).total = countInitCorrect model dataset ∧
      (runTest model epsilon dataset).correct =
        countStillCorrect model epsilon dataset ∧
      (test model epsilon dataset).1 =
        (countStillCorrect model epsilon dataset : ℚ) /
          (countInitCorrect model dataset : ℚ) ∧
      ∀ eps : ℚ, (runTest constModel eps twoSampleDataset).total = 1 := by
  refine ⟨?_, ?_, test_fst model epsilon dataset, ?_⟩
  · rw [runTest_eq]
  · rw [runTest_eq]
  · intro eps
    rw [runTest_eq]
    show countInitCorrect constModel twoSampleDataset = 1
    decide

/-- Prediction on the perturbed input at epsilon 0 agrees with the initial
prediction, for in-range inputs and a gradient of the input shape. -/
lemma finalPred_epsilon_zero (model : Model) (p : List ℚ × Nat)
    (hrange : ∀ x ∈ p.1, 0 ≤ x ∧ x ≤ 1)
    (hshape : (model.grad p.1 p.2).length = p.1.length) :
    finalPred model 0 p = initPred model p := by
  unfold finalPred perturbedOf initPred
  rw [fgsm_attack_epsilon_zero p.1 (model.grad p.1 p.2) hshape hrange]

/-- At epsilon 0 the still-correct count collapses to the initially-correct
count. -/
lemma countStillCorrect_zero (model : Model) (dataset : List (List ℚ × Nat))
    (hrange : ∀ p ∈ dataset, ∀ x ∈ p.1, 0 ≤ x ∧ x ≤ 1)
    (hshape : ∀ p ∈ dataset, (model.grad p.1 p.2).length = p.1.length) :
    countStillCorrect model 0 dataset = countInitCorrect model dataset := by
  unfold countStillCorrect countInitCorrect
  congr 1
  apply List.filter_congr
  intro p hp
  rw [finalPred_epsilon_zero model p (hrange p hp) (hshape p hp)]
  exact decide_eq_decide.mpr ⟨fun h => h.1, fun h => ⟨h, h⟩⟩

/-- Plain (unattacked) classification accuracy of a model on a dataset: the
fraction of samples whose initial prediction matches the label. -/
def unattackedAccuracy (model : Model) (ds : List (List ℚ × Nat)) : ℚ :=
  ((ds.filter (fun p => decide (initPred model p = p.2))).length : ℚ) /
    (ds.length : ℚ)

/-- C6: at epsilon 0 with in-range inputs and shape-respecting gradients,
the accuracy reported by the evaluation loop equals the unattacked
classification accuracy of the model on the subset of samples it classifies
correctly without any attack. -/
theorem test_epsilon_zero_accuracy (model : Model) (dataset : List (List ℚ × Nat))
    (hrange : ∀ p ∈ dataset, ∀ x ∈ p.1, 0 ≤ x ∧ x ≤ 1)
    (hshape : ∀ p ∈ dataset, (model.grad p.1 p.2).length = p.1.length) :
    (test model 0 dataset).1 =
      unattackedAccuracy model
        (dataset.filter (fun p => decide (initPred model p = p.2))) := by
  have hidem :
      (dataset.filter (fun p => decide (initPred model p = p.2))).filter
          (fun p => decide (initPred model p = p.2)) =
        dataset.filter (fun p => decide (initPred model p = p.2)) := by
    rw [List.filter_filter]
    apply List.filter_congr
    intro p hp
    simp
  rw [test_fst, countStillCorrect_zero model dataset hrange hshape]
  unfold unattackedAccuracy countInitCorrect
  rw [hidem]

/-- Witness for C6 at a concrete model and dataset. -/
theorem test_epsilon_zero_accuracy_witness :
    (test constModel 0 twoSampleDataset).1 =
      unattackedAccuracy constModel
        (twoSampleDataset.filter (fun p => decide (initPred constModel p = p.2))) :=
  test_epsilon_zero_accuracy constModel twoSampleDataset (by decide) (by decide)

/-- Splitting the initially-correct count into still-correct and flipped
samples. -/
lemma countInitCorrect_split (model : Model) (epsilon : ℚ) :
    ∀ ds : List (List ℚ × Nat),
      countInitCorrect model ds =
        countStillCorrect model epsilon ds +
          (flipTriples model epsilon ds).length := by
  intro ds
  induction ds with
  | nil => rfl
  | cons p ds ih =>
    unfold countInitCorrect countStillCorrect flipTriples at ih ⊢
    by_cases hi : initPred model p = p.2
    · by_cases hf : finalPred model epsilon p = p.2
      · rw [List.filter_cons_of_pos (by simp [hi]),
          List.filter_cons_of_pos (by simp [hi, hf]),
          List.filter_cons_of_neg (by simp [hf])]
        simp only [List.length_cons]
        omega
      · rw [List.filter_cons_of_pos (by simp [hi]),
          List.filter_cons_of_neg (by simp [hf]),
          List.filter_cons_of_pos (by simp [hi, hf])]
        simp only [List.length_cons, List.map_cons]
        omega
    · rw [List.filter_cons_of_neg (by simp [hi]),
        List.filter_cons_of_neg (by simp [hi]),
        List.filter_cons_of_neg (by simp [hi])]
      omega

/-- C7: when a dataset produces more flips than the cap at a given epsilon,
the evaluation loop retains exactly advCap adversarial triples, namely the
first advCap flips in encounter order, while every flip still counts toward
the accuracy counters: the denominator counter equals the correct count plus
the full number of flips. -/
theorem test_adv_retention (model : Model) (epsilon : ℚ)
    (dataset : List (List ℚ × Nat))
    (hmany : advCap < (flipTriples model epsilon dataset).length) :
    (runTest model epsilon dataset).advExamples =
        (flipTriples model epsilon dataset).take advCap ∧
      (runTest model epsilon dataset).advExamples.length = advCap ∧
      (runTest model epsilon dataset).total =
        (runTest model epsilon dataset).correct +
          (flipTriples model epsilon dataset).length := by
  rw [runTest_eq]
  refine ⟨rfl, ?_, ?_⟩
  · show ((flipTriples model epsilon dataset).take advCap).length = advCap
    rw [List.length_take]
    omega
  · show countInitCorrect model dataset =
      countStillCorrect model epsilon dataset +
        (flipTriples model epsilon dataset).length
    exact countInitCorrect_split model epsilon dataset

/-- Forward pass predicting class 0 for a first pixel at most 0 and class 1
otherwise. -/
def flipForward (t : List ℚ) : List ℚ :=
  if t.getD 0 0 ≤ 0 then [1, 0] else [0, 1]

/-- Concrete model whose prediction flips once the first pixel is pushed
above 0, used with a six-sample dataset to exceed the retention cap. -/
def flipModel : Model := ⟨flipForward, fun _ _ => [1]⟩

/-- Six identical samples, each flipped by flipModel at epsilon 1. -/
def flipDataset : List (List ℚ × Nat) :=
  [([0], 0), ([0], 0), ([0], 0), ([0], 0), ([0], 0), ([0], 0)]

/-- Initial prediction of flipModel on the repeated sample. -/
lemma flipModel_init : initPred flipModel ([0], 0) = 0 := by
  show argmax (flipForward [0]) = 0
  unfold flipForward
  rw [if_pos (by norm_num)]
  decide

/-- Perturbed input of the repeated sample at epsilon 1. -/
lemma flipModel_perturbed : perturbedOf flipModel 1 ([0], 0) = [1] := by
  show fgsm_attack [0] 1 [1] = [1]
  norm_num [fgsm_attack, sign, clamp01]

/-- Final prediction of flipModel on the repeated sample at epsilon 1. -/
lemma flipModel_final : finalPred flipModel 1 ([0], 0) = 1 := by
  unfold finalPred
  rw [flipModel_perturbed]
  show argmax (flipForward [1]) = 1
  unfold flipForward
  rw [if_neg (by norm_num)]
  decide

/-- The six-sample dataset produces six flips, more than the cap. -/
lemma flipDataset_many_flips :
    advCap < (flipTriples flipModel 1 flipDataset).length := by
  simp [flipTriples, flipDataset, flipModel_init, flipModel_final, advCap]

/-- Witness for C7 at a concrete model and dataset with six flips. -/
theorem test_adv_retention_witness :
    advCap < (flipTriples flipModel 1 flipDataset).length ∧
      ((runTest flipModel 1 flipDataset).advExamples =
          (flipTriples flipModel 1 flipDataset).take advCap ∧
        (runTest flipModel 1 flipDataset).advExamples.length = advCap ∧
        (runTest flipModel 1 flipDataset).total =
          (runTest flipModel 1 flipDataset).correct +
            (flipTriples flipModel 1 flipDataset).length) :=
  ⟨flipDataset_many_flips,
    test_adv_retention flipModel 1 flipDataset flipDataset_many_flips⟩

/-- Forward pass predicting class 1 exactly when the first pixel lies in a
narrow band, and class 0 otherwise. -/
def bumpForward (t : List ℚ) : List ℚ :=
  if 54/100 ≤ t.getD 0 0 ∧ t.getD 0 0 ≤ 56/100 then [0, 1] else [1, 0]

/-- Concrete model with a narrow misclassification band, on which the
accuracy of the evaluation loop is not monotone in epsilon. -/
def bumpModel : Model := ⟨bumpForward, fun _ _ => [1]⟩

/-- One-sample dataset for bumpModel. -/
def bumpDataset : List (List ℚ × Nat) := [([1/2], 0)]

/-- Initial prediction of bumpModel on the sample. -/
lemma bumpModel_init : initPred bumpModel ([((2 : ℚ))⁻¹], 0) = 0 := by
  show argmax (bumpForward [((2 : ℚ))⁻¹]) = 0
  unfold bumpForward
  rw [if_neg (by norm_num)]
  decide

/-- Perturbed input of the sample at epsilon one twentieth. -/
lemma bumpModel_perturbed_small :
    perturbedOf bumpModel ((20 : ℚ))⁻¹ ([((2 : ℚ))⁻¹], 0) = [11/20] := by
  show fgsm_attack [((2 : ℚ))⁻¹] ((20 : ℚ))⁻¹ [1] = [11/20]
  norm_num [fgsm_attack, sign, clamp01]

/-- At epsilon one twentieth the perturbed sample lands in the band and is
misclassified. -/
lemma bumpModel_final_small :
    finalPred bumpModel ((20 : ℚ))⁻¹ ([((2 : ℚ))⁻¹], 0) = 1 := by
  unfold finalPred
  rw [bumpModel_perturbed_small]
  show argmax (bumpForward [(11 : ℚ)/20]) = 1
  unfold bumpForward
  rw [if_pos (by norm_num)]
  decide

/-- Perturbed input of the sample at epsilon one tenth. -/
lemma bumpModel_perturbed_big :
    perturbedOf bumpModel ((10 : ℚ))⁻¹ ([((2 : ℚ))⁻¹], 0) = [3/5] := by
  show fgsm_attack [((2 : ℚ))⁻¹] ((10 : ℚ))⁻¹ [1] = [3/5]
  norm_num [fgsm_attack, sign, clamp01]

/-- At epsilon one tenth the perturbed sample overshoots the band and is
classified correctly again. -/
lemma bumpModel_final_big :
    finalPred bumpModel ((10 : ℚ))⁻¹ ([((2 : ℚ))⁻¹], 0) = 0 := by
  unfold finalPred
  rw [bumpModel_perturbed_big]
  show argmax (bumpForward [(3 : ℚ)/5]) = 0
  unfold bumpForward
  rw [if_neg (by norm_num)]
  decide

/-- C8 counterexample: on bumpModel and its one-sample dataset, two epsilon
values inside the representative range compare the wrong way: the accuracy
at the smaller epsilon one twentieth is strictly below the accuracy at the
larger epsilon one tenth, so the accuracy computed by the evaluation loop is
not non-increasing in epsilon for every fixed model and dataset. -/
theorem test_accuracy_not_monotone :
    ((0 : ℚ) ≤ 1/20 ∧ ((1 : ℚ)/20) < 1/10 ∧ ((1 : ℚ)/10) ≤ 3/10) ∧
      (test bumpModel (1/20) bumpDataset).1 <
        (test bumpModel (1/10) bumpDataset).1 := by
  constructor
  · refine ⟨by norm_num, by norm_num, by norm_num⟩
  · have hI : countInitCorrect bumpModel bumpDataset = 1 := by
      simp [countInitCorrect, bumpDataset, bumpModel_init]
    have hS1 : countStillCorrect bumpModel (1/20) bumpDataset = 0 := by
      simp [countStillCorrect, bumpDataset, bumpModel_init, bumpModel_final_small]
    have hS2 : countStillCorrect bumpModel (1/10) bumpDataset = 1 := by
      simp [countStillCorrect, bumpDataset, bumpModel_init, bumpModel_final_big]
    rw [test_fst, test_fst, hI, hS1, hS2]
    norm_num

/-- The still-correct count never exceeds the initially-correct count. -/
lemma countStillCorrect_le (model : Model) (epsilon : ℚ)
    (ds : List (List ℚ × Nat)) :
    countStillCorrect model epsilon ds ≤ countInitCorrect model ds := by
  unfold countStillCorrect countInitCorrect
  apply List.Sublist.length_le
  apply List.monotone_filter_right
  intro p hp
  simp only [decide_eq_true_eq] at hp ⊢
  exact hp.1

/-- C8 amended: for in-range inputs and shape-respecting gradients, the
accuracy of the evaluation loop at any epsilon is at most its accuracy at
epsilon 0; monotonicity across arbitrary pairs of positive epsilons is an
empirical observation and does not hold for every model and dataset. -/
theorem test_accuracy_le_epsilon_zero (model : Model) (epsilon : ℚ)
    (dataset : List (List ℚ × Nat))
    (hrange : ∀ p ∈ dataset, ∀ x ∈ p.1, 0 ≤ x ∧ x ≤ 1)
    (hshape : ∀ p ∈ dataset, (model.grad p.1 p.2).length = p.1.length) :
    (test model epsilon dataset).1 ≤ (test model 0 dataset).1 := by
  rw [test_fst, test_fst, countStillCorrect_zero model dataset hrange hshape]
  have hle := countStillCorrect_le model epsilon dataset
  rcases Nat.eq_zero_or_pos (countInitCorrect model dataset) with hz | hp
  · have h0 : countStillCorrect model epsilon dataset = 0 := by omega
    rw [hz, h0]
  · have hc : (0 : ℚ) < (countInitCorrect model dataset : ℚ) := by
      exact_mod_cast hp
    exact (div_le_div_iff_of_pos_right hc).mpr (by exact_mod_cast hle)

/-- Witness for the amended C8 at a concrete model and dataset. -/
theorem test_accuracy_le_epsilon_zero_witness :
    (test constModel 1 twoSampleDataset).1 ≤ (test constModel 0 twoSampleDataset).1 :=
  test_accuracy_le_epsilon_zero constModel 1 twoSampleDataset (by decide) (by decide)

/-- C9: the evaluation loop carries no state between samples beyond the
accumulated counters and the capped adversarial-example list: over a
concatenation of two dataset parts both counters are the sums of the
per-part counters, and the retained list is the cap-limited prefix of the
per-part flip lists in encounter order.  The model itself is a pure value
in this development, so its parameters cannot be mutated by the run. -/
theorem test_no_cross_sample_state (model : Model) (epsilon : ℚ)
    (ds1 ds2 : List (List ℚ × Nat)) :
    (runTest model epsilon (ds1 ++ ds2)).correct =
        (runTest model epsilon ds1).correct + (runTest model epsilon ds2).correct ∧
      (runTest model epsilon (ds1 ++ ds2)).total =
        (runTest model epsilon ds1).total + (runTest model epsilon ds2).total ∧
      (runTest model epsilon (ds1 ++ ds2)).advExamples =
        (flipTriples model epsilon ds1 ++ flipTriples model epsilon ds2).take advCap := by
  simp only [runTest_eq]
  refine ⟨?_, ?_, ?_⟩
  · unfold countStillCorrect
    rw [List.filter_append, List.length_append]
  · unfold countInitCorrect
    rw [List.filter_append, List.length_append]
  · unfold flipTriples
    rw [List.filter_append, List.map_append]
